import Mathlib

/-!
# recursivedt.cpp : a Manager / Employee pair on an explicit heap

A shallow embedding of `src/recursivedt.cpp`.  The two record types, the heap
they live on and the two functions `create` and `main` are modelled with
explicit state passing.  The state carries, next to the heap itself, a
chronological log of the memory events performed (ghost instrumentation), so
that orderings and counts of allocations and releases can be stated.
-/

namespace RecursiveDT

/-! ## Data model -/

/-- A pointer value of the C++ abstract machine: an indeterminate value (what a
pointer object holds when it was default-initialised and never assigned), the
null pointer, or the address of a heap object. -/
inductive Ptr where
  | indeterminate
  | null
  | addr (a : Nat)
deriving DecidableEq, Repr

/-- The record `struct Employee { Manager* boss; Employee* next_employee; }`. -/
structure Employee where
  boss : Ptr
  next_employee : Ptr
deriving DecidableEq, Repr

/-- The record `struct Manager { Employee* first_employee; }`. -/
structure Manager where
  first_employee : Ptr
deriving DecidableEq, Repr

/-- A heap object: an `Employee` or a `Manager`. -/
inductive Cell where
  | employee (e : Employee)
  | manager (m : Manager)
deriving DecidableEq, Repr

/-- The two record kinds. -/
inductive Kind where
  | employee
  | manager
deriving DecidableEq, Repr

/-- The three fields of the two records. -/
inductive Field where
  | boss
  | next_employee
  | first_employee
deriving DecidableEq, Repr

/-- Memory events, logged in the order in which they happen. `alloc` is a
`new`-expression (storage plus its value-initialisation), `write` an assignment
to a field, `read` a read of a field, `free` a `delete`-expression that
released a record. -/
inductive Event where
  | alloc (k : Kind) (a : Nat)
  | write (a : Nat) (f : Field)
  | read (a : Nat) (f : Field)
  | free (a : Nat)
deriving DecidableEq, Repr

/-- What can go wrong. `invalidAccess`: a field is accessed through a pointer that
does not point to a live record of the right kind. `invalidDelete`: `delete` is
applied to a pointer that is neither null nor the address of a live record of the
right kind. Both are undefined behaviour in C++. `noReturn`: the steps of `main`
ended without a `return` (the last step of `mainStmts` is `return 0`). -/
inductive Fault where
  | invalidAccess
  | invalidDelete
  | noReturn
deriving DecidableEq, Repr

/-- The heap: a finite map from addresses to live records. -/
abbrev Heap := AList (fun _ : Nat => Cell)

/-- Program state: the heap and the event log. -/
structure State where
  heap : Heap
  log : List Event
deriving DecidableEq

/-- The state with no live record and no event. -/
def State.empty : State := { heap := ∅, log := [] }

/-- The kind of a record. -/
def Cell.kind : Cell → Kind
  | .employee _ => .employee
  | .manager _ => .manager

/-- Number of live records: what an allocation counter reads. -/
def State.liveCount (s : State) : Nat := s.heap.keys.length

/-- Number of live records of kind `k`. -/
def State.liveOfKind (s : State) (k : Kind) : Nat :=
  (s.heap.entries.filter (fun c => decide (c.2.kind = k))).length

/-- The allocation function behind `operator new`: given the addresses of the
live records it yields the address of the new one, which is none of them.
Nothing else is assumed of it, so freed addresses may be handed out again. -/
structure Allocator where
  pick : List Nat → Nat
  fresh : ∀ live : List Nat, pick live ∉ live

/-- A concrete allocator: one more than the largest live address. -/
def bumpAllocator : Allocator where
  pick live := live.foldr max 0 + 1
  fresh := by
    intro live h
    have hle : ∀ (l : List Nat) (x : Nat), x ∈ l → x ≤ l.foldr max 0 := by
      intro l
      induction l with
      | nil => intro x hx; cases hx
      | cons y ys ih =>
        intro x hx
        rcases List.mem_cons.mp hx with rfl | hx
        · exact le_max_left _ _
        · exact le_trans (ih x hx) (le_max_right _ _)
    have hb : live.foldr max 0 + 1 ≤ live.foldr max 0 := hle live (live.foldr max 0 + 1) h
    omega

/-! ## Primitive operations -/

/-- The result of value-initialisation, `T()`: both record types have no
user-provided constructor, so the object is zero-initialised and every pointer
member is a null pointer. -/
def valueInit : Kind → Cell
  | .employee => .employee { boss := .null, next_employee := .null }
  | .manager => .manager { first_employee := .null }

/-- The expression `new T()` for the record kind `k`. -/
def newRecord (A : Allocator) (k : Kind) (s : State) : Ptr × State :=
  let a := A.pick s.heap.keys
  (.addr a, { heap := s.heap.insert a (valueInit k), log := s.log ++ [.alloc k a] })

/-- The statement `p->boss = v`. -/
def setBoss (p v : Ptr) (s : State) : Except Fault State :=
  match p with
  | .addr a =>
    match s.heap.lookup a with
    | some (.employee e) =>
      .ok { heap := s.heap.insert a (.employee { e with boss := v }),
            log := s.log ++ [.write a .boss] }
    | _ => .error .invalidAccess
  | _ => .error .invalidAccess

/-- The statement `p->first_employee = v`. -/
def setFirstEmployee (p v : Ptr) (s : State) : Except Fault State :=
  match p with
  | .addr a =>
    match s.heap.lookup a with
    | some (.manager m) =>
      .ok { heap := s.heap.insert a (.manager { m with first_employee := v }),
            log := s.log ++ [.write a .first_employee] }
    | _ => .error .invalidAccess
  | _ => .error .invalidAccess

/-- The expression `p->first_employee` used as a value. -/
def getFirstEmployee (p : Ptr) (s : State) : Except Fault (Ptr × State) :=
  match p with
  | .addr a =>
    match s.heap.lookup a with
    | some (.manager m) =>
      .ok (m.first_employee, { s with log := s.log ++ [.read a .first_employee] })
    | _ => .error .invalidAccess
  | _ => .error .invalidAccess

/-- The expression `delete(p)` for `p` of static type `k*`: nothing happens for
the null pointer, a live record of kind `k` is released, anything else is
undefined. -/
def deleteRecord (k : Kind) (p : Ptr) (s : State) : Except Fault State :=
  match p with
  | .null => .ok s
  | .addr a =>
    match s.heap.lookup a with
    | some c =>
      if c.kind = k then
        .ok { heap := s.heap.erase a, log := s.log ++ [.free a] }
      else .error .invalidDelete
    | none => .error .invalidDelete
  | .indeterminate => .error .invalidDelete

/-! ## The program -/

/-- The function `Manager* create()`, lines 12-20. -/
def create (A : Allocator) (s : State) : Except Fault (Ptr × State) := do
  let (e, s) := newRecord A .employee s      -- Employee* e = new Employee();
  let (m, s) := newRecord A .manager s       -- Manager* m = new Manager();
  let s ← setBoss e m s                      -- e->boss = m;
  let s ← setFirstEmployee m e s             -- m->first_employee = e;
  pure (m, s)                                -- return m;

/-- The activation record of `main`: the local `m`, the value of the operand
of the first `delete`, the returned status once `return` ran, and the program
state. -/
structure Frame where
  m : Ptr
  operand : Ptr
  status : Option Int
  st : State
deriving DecidableEq

/-- The frame in which `main` starts on the state `s`. -/
def Frame.init (s : State) : Frame :=
  { m := .indeterminate, operand := .indeterminate, status := none, st := s }

/-- The body of `main`, lines 22-29, one entry per evaluation step. -/
def mainStmts (A : Allocator) : List (Frame → Except Fault Frame) :=
  [ -- line 23: Manager* m = create();
    fun f => do
      let (m, s) ← create A f.st
      pure { f with m := m, st := s },
    -- line 25, the operand: m->first_employee
    fun f => do
      let (p, s) ← getFirstEmployee f.m f.st
      pure { f with operand := p, st := s },
    -- line 25, the release: delete(m->first_employee);
    fun f => do
      let s ← deleteRecord .employee f.operand f.st
      pure { f with st := s },
    -- line 26: delete(m);
    fun f => do
      let s ← deleteRecord .manager f.m f.st
      pure { f with st := s },
    -- line 28: return 0;
    fun f => pure { f with status := some 0 } ]

/-- Run a list of steps in sequence from a frame, stopping at the first fault. -/
def runStmts : List (Frame → Except Fault Frame) → Frame → Except Fault Frame
  | [], f => .ok f
  | stmt :: rest, f =>
    match stmt f with
    | .ok g => runStmts rest g
    | .error x => .error x

/-- The frame at program point `k` of `main` started on `s`: the first `k`
steps have run. Point 0 is the entry, point 1 is after `create()` returned,
point 2 is after the operand of the first `delete` was read, point 3 is after
the first `delete`, point 4 after the second, point 5 after `return`. -/
def runTo (A : Allocator) (k : Nat) (s : State) : Except Fault Frame :=
  runStmts ((mainStmts A).take k) (Frame.init s)

/-- Resume `main` at program point `k` in the frame `f` and run it to its end. -/
def runFrom (A : Allocator) (k : Nat) (f : Frame) : Except Fault Frame :=
  runStmts ((mainStmts A).drop k) f

/-- The function `int main()`, lines 22-29: its status and final state. -/
def main (A : Allocator) (s : State) : Except Fault (Int × State) :=
  match runFrom A 0 (Frame.init s) with
  | .ok f =>
    match f.status with
    | some r => .ok (r, f.st)
    | none => .error .noReturn
  | .error x => .error x

/-! ## Observers used in the statements -/

/-- The allocation counter evaluated on an event log: `alloc` counts up, `free`
counts down. -/
def allocCounter : List Event → Int
  | [] => 0
  | .alloc _ _ :: evs => allocCounter evs + 1
  | .free _ :: evs => allocCounter evs - 1
  | _ :: evs => allocCounter evs

/-- Replay of an event log over a set of live addresses: every allocation
yields an address that is not live, and every write, read and release targets
an address that is live at that moment. -/
def traceSafe : List Nat → List Event → Bool
  | _, [] => true
  | live, .alloc _ a :: evs => !(live.contains a) && traceSafe (a :: live) evs
  | live, .write a _ :: evs => live.contains a && traceSafe live evs
  | live, .read a _ :: evs => live.contains a && traceSafe live evs
  | live, .free a :: evs => live.contains a && traceSafe (live.erase a) evs

/-- The event starts or ends the lifetime of a record. -/
def Event.isLifetime : Event → Bool
  | .alloc _ _ => true
  | .free _ => true
  | _ => false

/-- The event touches the field `next_employee` by a read or an assignment. -/
def Event.touchesNext : Event → Bool
  | .write _ .next_employee => true
  | .read _ .next_employee => true
  | _ => false

/-- A record with its `next_employee` field blanked out. -/
def Cell.eraseNext : Cell → Cell
  | .employee e => .employee { e with next_employee := .null }
  | .manager m => .manager m

/-- Two states that differ at most in the `next_employee` fields of their
records: same log, same live addresses, same records up to that field. -/
def AgreeOffNext (s t : State) : Prop :=
  s.log = t.log ∧ s.heap.keys = t.heap.keys ∧
    ∀ a, (s.heap.lookup a).map Cell.eraseNext = (t.heap.lookup a).map Cell.eraseNext

/-- Two frames with the same locals whose states differ at most in
`next_employee` fields. -/
def FrameAgree (f g : Frame) : Prop :=
  f.m = g.m ∧ f.operand = g.operand ∧ f.status = g.status ∧ AgreeOffNext f.st g.st

/-- Two outcomes that are the same fault, or two results related by `R`. -/
def OutcomeRel {α : Type} (R : α → α → Prop) : Except Fault α → Except Fault α → Prop
  | .ok a, .ok b => R a b
  | .error x, .error y => x = y
  | _, _ => False

/-! ## Heap lemmas -/

theorem keys_insert_fresh (h : Heap) (a : Nat) (c : Cell) (ha : a ∉ h) :
    (h.insert a c).keys = a :: h.keys := by
  rw [AList.keys_insert, List.erase_of_not_mem (AList.mem_keys.not.mp ha)]

theorem insert_twice_normal (h : Heap) (e m : Nat) (hne : e ≠ m) (E0 E1 M0 M1 : Cell) :
    (((h.insert e E0).insert m M0).insert e E1).insert m M1 = (h.insert e E1).insert m M1 := by
  apply AList.ext
  have hne2 : m ≠ e := fun x => hne x.symm
  simp [AList.insert_entries, List.kerase_cons_ne, List.kerase_cons_eq, hne, hne2,
    List.kerase_kerase]

theorem erase_pair_fresh (h : Heap) (e m : Nat) (he : e ∉ h) (hm : m ∉ h) (hne : e ≠ m)
    (E M : Cell) : (((h.insert e E).insert m M).erase e).erase m = h := by
  apply AList.ext
  have hne2 : m ≠ e := fun x => hne x.symm
  have he2 : e ∉ h.entries.keys := he
  have hm2 : m ∉ h.entries.keys := hm
  have hE : ∀ (a : Nat) (t : Heap), (t.erase a).entries = t.entries.kerase a := fun _ _ => rfl
  simp [hE, AList.insert_entries, List.kerase_cons_ne, List.kerase_cons_eq, hne, hne2,
    List.kerase_of_not_mem_keys he2, List.kerase_of_not_mem_keys hm2]

/-! ## What `create` and `main` compute -/

/-- The result of `create` in closed form: the employee address `e` and the
manager address `m` are the allocator's two picks, both fresh and distinct. -/
theorem create_spec (A : Allocator) (s : State) :
    ∃ e m : Nat, e ∉ s.heap ∧ m ∉ s.heap ∧ e ≠ m ∧
      e = A.pick s.heap.keys ∧ m = A.pick (e :: s.heap.keys) ∧
      create A s = .ok (.addr m,
        { heap := (s.heap.insert e (.employee ⟨.addr m, .null⟩)).insert m (.manager ⟨.addr e⟩),
          log := s.log ++ [.alloc .employee e, .alloc .manager m, .write e .boss,
            .write m .first_employee] }) := by
  have he : A.pick s.heap.keys ∉ s.heap := AList.mem_keys.not.mpr (A.fresh _)
  have hm0 := A.fresh (A.pick s.heap.keys :: s.heap.keys)
  have hne : A.pick s.heap.keys ≠ A.pick (A.pick s.heap.keys :: s.heap.keys) := by
    intro h
    exact hm0 (h ▸ List.mem_cons_self _ _)
  have hm : A.pick (A.pick s.heap.keys :: s.heap.keys) ∉ s.heap :=
    AList.mem_keys.not.mpr (fun h => hm0 (List.mem_cons_of_mem _ h))
  refine ⟨_, _, he, hm, hne, rfl, rfl, ?_⟩
  simp only [create, newRecord, keys_insert_fresh _ _ _ he]
  simp [setBoss, setFirstEmployee, valueInit, AList.lookup_insert_ne hne, AList.lookup_insert,
    AList.lookup_insert_ne (Ne.symm hne), bind, Except.bind, pure, Except.pure,
    insert_twice_normal _ _ _ hne]

/-- Every program point of `main`, and its result, in closed form. -/
theorem main_points (A : Allocator) (s : State) :
    ∃ e m : Nat, e ∉ s.heap ∧ m ∉ s.heap ∧ e ≠ m ∧
      create A s = .ok (.addr m,
        { heap := (s.heap.insert e (.employee ⟨.addr m, .null⟩)).insert m (.manager ⟨.addr e⟩),
          log := s.log ++ [.alloc .employee e, .alloc .manager m, .write e .boss,
            .write m .first_employee] }) ∧
      runTo A 1 s = .ok
        { m := .addr m, operand := .indeterminate, status := none,
          st := { heap := (s.heap.insert e (.employee ⟨.addr m, .null⟩)).insert m
                    (.manager ⟨.addr e⟩),
                  log := s.log ++ [.alloc .employee e, .alloc .manager m, .write e .boss,
                    .write m .first_employee] } } ∧
      runTo A 2 s = .ok
        { m := .addr m, operand := .addr e, status := none,
          st := { heap := (s.heap.insert e (.employee ⟨.addr m, .null⟩)).insert m
                    (.manager ⟨.addr e⟩),
                  log := s.log ++ [.alloc .employee e, .alloc .manager m, .write e .boss,
                    .write m .first_employee, .read m .first_employee] } } ∧
      runTo A 3 s = .ok
        { m := .addr m, operand := .addr e, status := none,
          st := { heap := ((s.heap.insert e (.employee ⟨.addr m, .null⟩)).insert m
                    (.manager ⟨.addr e⟩)).erase e,
                  log := s.log ++ [.alloc .employee e, .alloc .manager m, .write e .boss,
                    .write m .first_employee, .read m .first_employee, .free e] } } ∧
      runTo A 4 s = .ok
        { m := .addr m, operand := .addr e, status := none,
          st := { heap := s.heap,
                  log := s.log ++ [.alloc .employee e, .alloc .manager m, .write e .boss,
                    .write m .first_employee, .read m .first_employee, .free e, .free m] } } ∧
      main A s = .ok (0,
        { heap := s.heap,
          log := s.log ++ [.alloc .employee e, .alloc .manager m, .write e .boss,
            .write m .first_employee, .read m .first_employee, .free e, .free m] }) := by
  obtain ⟨e, m, he, hm, hne, -, -, hc⟩ := create_spec A s
  have hne2 : m ≠ e := Ne.symm hne
  refine ⟨e, m, he, hm, hne, hc, ?_, ?_, ?_, ?_, ?_⟩
  · simp [runTo, mainStmts, runStmts, Frame.init, hc, bind, Except.bind, pure, Except.pure]
  · simp [runTo, mainStmts, runStmts, Frame.init, hc, bind, Except.bind, pure, Except.pure,
      getFirstEmployee, AList.lookup_insert]
  · simp [runTo, mainStmts, runStmts, Frame.init, hc, bind, Except.bind, pure, Except.pure,
      getFirstEmployee, deleteRecord, AList.lookup_insert, AList.lookup_insert_ne hne, Cell.kind]
  · simp [runTo, mainStmts, runStmts, Frame.init, hc, bind, Except.bind, pure, Except.pure,
      getFirstEmployee, deleteRecord, AList.lookup_insert, AList.lookup_insert_ne hne, Cell.kind,
      AList.lookup_erase_ne hne2, erase_pair_fresh _ _ _ he hm hne]
  · simp [main, runFrom, mainStmts, runStmts, Frame.init, hc, bind, Except.bind, pure,
      Except.pure, getFirstEmployee, deleteRecord, AList.lookup_insert,
      AList.lookup_insert_ne hne, Cell.kind, AList.lookup_erase_ne hne2,
      erase_pair_fresh _ _ _ he hm hne]

/-! ## The construction routine -/

/-- C1: for every allocator and every initial state, `create()` returns a non-null
pointer `m` to a live `Manager` whose `first_employee` is a non-null pointer `e` to
a live `Employee` whose `boss` is `m` again. -/
theorem create_mutual_reference (A : Allocator) (s : State) :
    ∃ (m e : Nat) (s' : State) (nx : Ptr),
      create A s = .ok (.addr m, s') ∧
      s'.heap.lookup m = some (.manager { first_employee := .addr e }) ∧
      s'.heap.lookup e = some (.employee { boss := .addr m, next_employee := nx }) := by
  obtain ⟨e, m, -, -, hne, -, -, hc⟩ := create_spec A s
  exact ⟨m, e, _, .null, hc, by simp [AList.lookup_insert],
    by simp [AList.lookup_insert, AList.lookup_insert_ne hne]⟩

/-- C2: one call of `create()` allocates exactly one `Employee` and one `Manager`:
the live addresses afterwards are the two fresh, distinct addresses `m` and `e`
followed by the live addresses before, `e` holds an `Employee` and `m` a `Manager`,
the number of live records of each kind grew by one, and the events of the call
are two allocations, two field writes and no release. -/
theorem create_allocates_one_of_each (A : Allocator) (s : State) :
    ∃ (e m : Nat) (s' : State),
      create A s = .ok (.addr m, s') ∧
      e ∉ s.heap ∧ m ∉ s.heap ∧ e ≠ m ∧
      s'.heap.keys = m :: e :: s.heap.keys ∧
      (s'.heap.lookup e).map Cell.kind = some .employee ∧
      (s'.heap.lookup m).map Cell.kind = some .manager ∧
      s'.liveOfKind .employee = s.liveOfKind .employee + 1 ∧
      s'.liveOfKind .manager = s.liveOfKind .manager + 1 ∧
      s'.liveCount = s.liveCount + 2 ∧
      s'.log = s.log ++ [.alloc .employee e, .alloc .manager m, .write e .boss,
        .write m .first_employee] := by
  obtain ⟨e, m, he, hm, hne, -, -, hc⟩ := create_spec A s
  have hm1 : m ∉ s.heap.insert e (.employee ⟨.addr m, .null⟩) := by
    simp [AList.mem_insert, hm, Ne.symm hne]
  have hkeys : ((s.heap.insert e (.employee ⟨.addr m, .null⟩)).insert m
      (.manager ⟨.addr e⟩)).keys = m :: e :: s.heap.keys := by
    rw [keys_insert_fresh _ _ _ hm1, keys_insert_fresh _ _ _ he]
  have hent : ((s.heap.insert e (.employee ⟨.addr m, .null⟩)).insert m
      (.manager ⟨.addr e⟩)).entries
        = ⟨m, .manager ⟨.addr e⟩⟩ :: ⟨e, .employee ⟨.addr m, .null⟩⟩ :: s.heap.entries := by
    rw [AList.insert_entries_of_neg hm1, AList.insert_entries_of_neg he]
  refine ⟨e, m, _, hc, he, hm, hne, hkeys, ?_, ?_, ?_, ?_, ?_, rfl⟩
  · simp [AList.lookup_insert, AList.lookup_insert_ne hne, Cell.kind]
  · simp [AList.lookup_insert, Cell.kind]
  · simp only [State.liveOfKind]
    rw [hent]
    simp [List.filter_cons, Cell.kind]
  · simp only [State.liveOfKind]
    rw [hent]
    simp [List.filter_cons, Cell.kind]
  · simp [State.liveCount, hkeys]

/-- C9: `create()` leaves every record that was live before the call as it was, and
the two addresses it returns, the `Manager` and its `first_employee`, were not live
before the call. -/
theorem create_frame (A : Allocator) (s : State) :
    ∃ (m e : Nat) (s' : State),
      create A s = .ok (.addr m, s') ∧
      s'.heap.lookup m = some (.manager { first_employee := .addr e }) ∧
      m ∉ s.heap ∧ e ∉ s.heap ∧
      ∀ a, a ∈ s.heap → s'.heap.lookup a = s.heap.lookup a := by
  obtain ⟨e, m, he, hm, hne, -, -, hc⟩ := create_spec A s
  refine ⟨m, e, _, hc, by simp [AList.lookup_insert], hm, he, ?_⟩
  intro a ha
  have ham : a ≠ m := fun h => hm (h ▸ ha)
  have hae : a ≠ e := fun h => he (h ▸ ha)
  simp [AList.lookup_insert_ne ham, AList.lookup_insert_ne hae]

/-- C10: two successive calls of `create()` with no release in between return two
different managers with two different employees, and in the state after the second
call each manager still points to its own employee and each employee to its own
manager. -/
theorem create_twice (A : Allocator) (s : State) :
    ∃ (m1 e1 m2 e2 : Nat) (s1 s2 : State) (n1 n2 : Ptr),
      create A s = .ok (.addr m1, s1) ∧
      create A s1 = .ok (.addr m2, s2) ∧
      m1 ≠ m2 ∧ e1 ≠ e2 ∧
      s1.heap.lookup m1 = some (.manager { first_employee := .addr e1 }) ∧
      s1.heap.lookup e1 = some (.employee { boss := .addr m1, next_employee := n1 }) ∧
      s2.heap.lookup m1 = some (.manager { first_employee := .addr e1 }) ∧
      s2.heap.lookup e1 = some (.employee { boss := .addr m1, next_employee := n1 }) ∧
      s2.heap.lookup m2 = some (.manager { first_employee := .addr e2 }) ∧
      s2.heap.lookup e2 = some (.employee { boss := .addr m2, next_employee := n2 }) := by
  obtain ⟨e1, m1, he1, hm1, hne1, -, -, hc1⟩ := create_spec A s
  obtain ⟨e2, m2, he2, hm2, hne2, -, -, hc2⟩ := create_spec A
    { heap := (s.heap.insert e1 (.employee ⟨.addr m1, .null⟩)).insert m1 (.manager ⟨.addr e1⟩),
      log := s.log ++ [.alloc .employee e1, .alloc .manager m1, .write e1 .boss,
        .write m1 .first_employee] }
  simp only [AList.mem_insert, not_or] at he2 hm2
  obtain ⟨he2m1, he2e1, -⟩ := he2
  obtain ⟨hm2m1, hm2e1, -⟩ := hm2
  refine ⟨m1, e1, m2, e2, _, _, .null, .null, hc1, hc2, Ne.symm hm2m1, Ne.symm he2e1, ?_, ?_,
    ?_, ?_, ?_, ?_⟩
  · simp [AList.lookup_insert]
  · simp [AList.lookup_insert, AList.lookup_insert_ne hne1]
  · simp [AList.lookup_insert, AList.lookup_insert_ne (Ne.symm hm2m1),
      AList.lookup_insert_ne (Ne.symm he2m1)]
  · simp [AList.lookup_insert, AList.lookup_insert_ne hne1,
      AList.lookup_insert_ne (Ne.symm hm2e1), AList.lookup_insert_ne (Ne.symm he2e1)]
  · simp [AList.lookup_insert]
  · simp [AList.lookup_insert, AList.lookup_insert_ne hne2]

/-! ## The entry point -/

/-- C3: run from the empty state, `main()` ends with no live record and with the
allocation counter of its event log at zero; its allocations and releases are, in
order, the `Employee` `e`, the `Manager` `m`, the release of `e` and the release of
`m`, with `e` and `m` distinct: each record is released once, none is leaked. -/
theorem main_balanced (A : Allocator) :
    ∃ (e m : Nat) (s' : State),
      main A State.empty = .ok (0, s') ∧ e ≠ m ∧
      s'.heap = ∅ ∧ s'.liveCount = 0 ∧ allocCounter s'.log = 0 ∧
      s'.log.filter Event.isLifetime
        = [.alloc .employee e, .alloc .manager m, .free e, .free m] ∧
      s'.log.count (.free e) = 1 ∧ s'.log.count (.free m) = 1 := by
  obtain ⟨e, m, -, -, hne, -, -, -, -, -, hmain⟩ := main_points A State.empty
  have hne2 : m ≠ e := Ne.symm hne
  refine ⟨e, m, _, hmain, hne, rfl, rfl, ?_, ?_, ?_, ?_⟩
  · simp [State.empty, allocCounter]
  · simp [State.empty, List.filter_cons, Event.isLifetime]
  · simp [State.empty, List.count_cons, hne, hne2]
  · simp [State.empty, List.count_cons, hne, hne2]

/-- C4: for every initial state `main()` succeeds, and the events it adds to the
log are, in this order: the two allocations, the two writes of `create()`, the read
of `m->first_employee`, the release of the employee `e`, the release of the manager
`m`. At program point 2, right before the first `delete`, the manager `m` is still
live, its `first_employee` is `e`, and `e` is the operand of that `delete`. Replayed
over the live addresses of the initial state the event sequence is safe: every
write, read and release targets a record that is live at that moment. -/
theorem main_release_order (A : Allocator) (s : State) :
    ∃ (e m : Nat) (f : Frame) (s' : State),
      main A s = .ok (0, s') ∧ e ≠ m ∧
      s'.log = s.log ++ [.alloc .employee e, .alloc .manager m, .write e .boss,
        .write m .first_employee, .read m .first_employee, .free e, .free m] ∧
      runTo A 2 s = .ok f ∧ f.m = .addr m ∧ f.operand = .addr e ∧
      f.st.heap.lookup m = some (.manager { first_employee := .addr e }) ∧
      traceSafe s.heap.keys [.alloc .employee e, .alloc .manager m, .write e .boss,
        .write m .first_employee, .read m .first_employee, .free e, .free m] = true := by
  obtain ⟨e, m, he, hm, hne, -, -, hp2, -, -, hmain⟩ := main_points A s
  have hne2 : m ≠ e := Ne.symm hne
  have he2 : e ∉ s.heap.keys := AList.mem_keys.not.mp he
  have hm2 : m ∉ s.heap.keys := AList.mem_keys.not.mp hm
  refine ⟨e, m, _, _, hmain, hne, rfl, hp2, rfl, rfl, by simp [AList.lookup_insert], ?_⟩
  simp [traceSafe, he2, hm2, hne, hne2, List.erase_cons]

/-- C5: for every allocator and every initial state `main()` runs to its `return`
without a fault and its status is 0. -/
theorem main_returns_zero (A : Allocator) (s : State) :
    ∃ s' : State, main A s = .ok (0, s') := by
  obtain ⟨e, m, -, -, -, -, -, -, -, -, hmain⟩ := main_points A s
  exact ⟨_, hmain⟩

/-- C8: started on the empty state, at every program point of `main()` after
`create()` returned and before the first `delete` (points 1 and 2) exactly one
`Manager` and exactly one `Employee` are live, the local `m` points to that manager,
the manager points to the employee and the employee back to the manager, and the
two records have different addresses. -/
theorem main_pair_live_before_delete (A : Allocator) (k : Nat) (h1 : 1 ≤ k) (h2 : k ≤ 2) :
    ∃ (e m : Nat) (f : Frame) (nx : Ptr),
      runTo A k State.empty = .ok f ∧ f.m = .addr m ∧
      f.st.liveOfKind .manager = 1 ∧ f.st.liveOfKind .employee = 1 ∧ f.st.liveCount = 2 ∧
      f.st.heap.lookup m = some (.manager { first_employee := .addr e }) ∧
      f.st.heap.lookup e = some (.employee { boss := .addr m, next_employee := nx }) ∧
      e ≠ m := by
  obtain ⟨e, m, -, -, hne, -, hp1, hp2, -, -, -⟩ := main_points A State.empty
  have hne2 : m ≠ e := Ne.symm hne
  have hent : ((AList.insert e (.employee ⟨.addr m, .null⟩) State.empty.heap).insert m
      (.manager ⟨.addr e⟩)).entries
        = [⟨m, .manager ⟨.addr e⟩⟩, ⟨e, .employee ⟨.addr m, .null⟩⟩] := by
    simp [State.empty, AList.insert_entries, List.kerase_cons_ne, hne2]
  have hk : k = 1 ∨ k = 2 := by omega
  rcases hk with rfl | rfl
  · refine ⟨e, m, _, .null, hp1, rfl, ?_, ?_, ?_, ?_, ?_, hne⟩
    · simp only [State.liveOfKind]
      rw [hent]
      simp [List.filter_cons, Cell.kind]
    · simp only [State.liveOfKind]
      rw [hent]
      simp [List.filter_cons, Cell.kind]
    · simp only [State.liveCount, AList.keys]
      rw [hent]
      rfl
    · simp [AList.lookup_insert]
    · simp [AList.lookup_insert, AList.lookup_insert_ne hne]
  · refine ⟨e, m, _, .null, hp2, rfl, ?_, ?_, ?_, ?_, ?_, hne⟩
    · simp only [State.liveOfKind]
      rw [hent]
      simp [List.filter_cons, Cell.kind]
    · simp only [State.liveOfKind]
      rw [hent]
      simp [List.filter_cons, Cell.kind]
    · simp only [State.liveCount, AList.keys]
      rw [hent]
      rfl
    · simp [AList.lookup_insert]
    · simp [AList.lookup_insert, AList.lookup_insert_ne hne]

/-- Witness of C8: the bump allocator at program point 2. -/
theorem main_pair_live_before_delete_witness :
    1 ≤ 2 ∧ 2 ≤ 2 ∧
    ∃ (e m : Nat) (f : Frame) (nx : Ptr),
      runTo bumpAllocator 2 State.empty = .ok f ∧ f.m = .addr m ∧
      f.st.liveOfKind .manager = 1 ∧ f.st.liveOfKind .employee = 1 ∧ f.st.liveCount = 2 ∧
      f.st.heap.lookup m = some (.manager { first_employee := .addr e }) ∧
      f.st.heap.lookup e = some (.employee { boss := .addr m, next_employee := nx }) ∧
      e ≠ m :=
  ⟨by decide, by decide, main_pair_live_before_delete bumpAllocator 2 (by decide) (by decide)⟩

/-! ## The field `next_employee` -/

theorem agree_insert {s t : State} (h : AgreeOffNext s t) (a : Nat) (c d : Cell)
    (hcd : c.eraseNext = d.eraseNext) (evs : List Event) :
    AgreeOffNext { heap := s.heap.insert a c, log := s.log ++ evs }
      { heap := t.heap.insert a d, log := t.log ++ evs } := by
  obtain ⟨hl, hk, hv⟩ := h
  refine ⟨by simp [hl], by simp [AList.keys_insert, hk], ?_⟩
  intro b
  by_cases hb : b = a
  · subst hb
    simp [AList.lookup_insert, hcd]
  · simpa [AList.lookup_insert_ne hb] using hv b

theorem agree_erase {s t : State} (h : AgreeOffNext s t) (a : Nat) (evs : List Event) :
    AgreeOffNext { heap := s.heap.erase a, log := s.log ++ evs }
      { heap := t.heap.erase a, log := t.log ++ evs } := by
  obtain ⟨hl, hk, hv⟩ := h
  refine ⟨by simp [hl], by simp [AList.keys_erase, hk], ?_⟩
  intro b
  by_cases hb : b = a
  · subst hb
    simp [AList.lookup_erase]
  · simpa [AList.lookup_erase_ne hb] using hv b

theorem agree_log {s t : State} (h : AgreeOffNext s t) (evs : List Event) :
    AgreeOffNext { heap := s.heap, log := s.log ++ evs }
      { heap := t.heap, log := t.log ++ evs } := by
  obtain ⟨hl, hk, hv⟩ := h
  exact ⟨by simp [hl], hk, hv⟩

theorem main_closed (A : Allocator) (s : State) :
    main A s = .ok (0,
      { heap := s.heap,
        log := s.log ++ [.alloc .employee (A.pick s.heap.keys),
          .alloc .manager (A.pick (A.pick s.heap.keys :: s.heap.keys)),
          .write (A.pick s.heap.keys) .boss,
          .write (A.pick (A.pick s.heap.keys :: s.heap.keys)) .first_employee,
          .read (A.pick (A.pick s.heap.keys :: s.heap.keys)) .first_employee,
          .free (A.pick s.heap.keys),
          .free (A.pick (A.pick s.heap.keys :: s.heap.keys))] }) := by
  obtain ⟨e, m, he, hm, hne, hE, hM, hc⟩ := create_spec A s
  have hne2 : m ≠ e := Ne.symm hne
  subst hE
  rw [← hM]
  simp [main, runFrom, mainStmts, runStmts, Frame.init, hc, bind, Except.bind, pure,
    Except.pure, getFirstEmployee, deleteRecord, AList.lookup_insert,
    AList.lookup_insert_ne hne, Cell.kind, AList.lookup_erase_ne hne2,
    erase_pair_fresh _ _ _ he hm hne]

theorem create_agree (A : Allocator) {s t : State} (h : AgreeOffNext s t) :
    ∃ (m : Ptr) (s' t' : State),
      create A s = .ok (m, s') ∧ create A t = .ok (m, t') ∧ AgreeOffNext s' t' := by
  obtain ⟨e, m, -, -, -, hE, hM, hc⟩ := create_spec A s
  obtain ⟨e2, m2, -, -, -, hE2, hM2, hc2⟩ := create_spec A t
  have hk := h.2.1
  have hee : e2 = e := by rw [hE, hE2, hk]
  subst hee
  have hmm : m2 = m := by rw [hM, hM2, hk]
  subst hmm
  refine ⟨_, _, _, hc, hc2, ?_⟩
  have h1 := agree_insert h e2 (.employee ⟨.addr m2, .null⟩) (.employee ⟨.addr m2, .null⟩) rfl []
  have h2 := agree_insert h1 m2 (.manager ⟨.addr e2⟩) (.manager ⟨.addr e2⟩) rfl
    [.alloc .employee e2, .alloc .manager m2, .write e2 .boss, .write m2 .first_employee]
  simpa using h2

theorem get_agree {s t : State} (h : AgreeOffNext s t) (p : Ptr) :
    OutcomeRel (fun x y => x.1 = y.1 ∧ AgreeOffNext x.2 y.2)
      (getFirstEmployee p s) (getFirstEmployee p t) := by
  cases p with
  | indeterminate => simp [getFirstEmployee, OutcomeRel]
  | null => simp [getFirstEmployee, OutcomeRel]
  | addr a =>
    have hv := h.2.2 a
    unfold getFirstEmployee
    simp only
    rcases hs : s.heap.lookup a with _ | (e1 | m1) <;>
      rcases ht : t.heap.lookup a with _ | (e2 | m2) <;>
      simp [hs, ht, Cell.eraseNext, OutcomeRel] at hv ⊢
    subst hv
    exact ⟨rfl, agree_log h _⟩

theorem delete_agree {s t : State} (h : AgreeOffNext s t) (k : Kind) (p : Ptr) :
    OutcomeRel AgreeOffNext (deleteRecord k p s) (deleteRecord k p t) := by
  cases p with
  | indeterminate => simp [deleteRecord, OutcomeRel]
  | null => simpa [deleteRecord, OutcomeRel] using h
  | addr a =>
    have hv := h.2.2 a
    unfold deleteRecord
    simp only
    rcases hs : s.heap.lookup a with _ | (e1 | m1) <;>
      rcases ht : t.heap.lookup a with _ | (e2 | m2) <;>
      simp [hs, ht, Cell.eraseNext, OutcomeRel] at hv ⊢
    · cases k <;> simp [Cell.kind, OutcomeRel]
      exact agree_erase h a _
    · cases k <;> simp [Cell.kind, OutcomeRel]
      exact agree_erase h a _

theorem stmt_agree (A : Allocator) (stmt : Frame → Except Fault Frame)
    (hmem : stmt ∈ mainStmts A) {f g : Frame} (h : FrameAgree f g) :
    OutcomeRel FrameAgree (stmt f) (stmt g) := by
  obtain ⟨hm, ho, hs, hst⟩ := h
  simp only [mainStmts, List.mem_cons, List.mem_singleton, List.not_mem_nil, or_false] at hmem
  rcases hmem with rfl | rfl | rfl | rfl | rfl
  · obtain ⟨m, s', t', h1, h2, hag⟩ := create_agree A hst
    simp [h1, h2, bind, Except.bind, pure, Except.pure, OutcomeRel, FrameAgree, ho, hs, hag]
  · have hg := get_agree hst f.m
    beta_reduce
    rw [← hm]
    rcases h1 : getFirstEmployee f.m f.st with x | ⟨p, s'⟩ <;>
      rcases h2 : getFirstEmployee f.m g.st with y | ⟨q, t'⟩ <;>
      simp [h1, h2, OutcomeRel, bind, Except.bind, pure, Except.pure, FrameAgree] at hg ⊢
    · exact hg
    · exact And.intro hg.1 (And.intro hs hg.2)
  · have hg := delete_agree hst .employee f.operand
    beta_reduce
    rw [← ho]
    rcases h1 : deleteRecord .employee f.operand f.st with x | s' <;>
      rcases h2 : deleteRecord .employee f.operand g.st with y | t' <;>
      simp [h1, h2, OutcomeRel, bind, Except.bind, pure, Except.pure, FrameAgree] at hg ⊢
    · exact hg
    · exact And.intro hm (And.intro hs hg)
  · have hg := delete_agree hst .manager f.m
    beta_reduce
    rw [← hm]
    rcases h1 : deleteRecord .manager f.m f.st with x | s' <;>
      rcases h2 : deleteRecord .manager f.m g.st with y | t' <;>
      simp [h1, h2, OutcomeRel, bind, Except.bind, pure, Except.pure, FrameAgree] at hg ⊢
    · exact hg
    · exact And.intro ho (And.intro hs hg)
  · simp [OutcomeRel, pure, Except.pure, FrameAgree, hm, ho, hst]

theorem runStmts_agree (stmts : List (Frame → Except Fault Frame))
    (hall : ∀ stmt ∈ stmts, ∀ f g : Frame, FrameAgree f g →
      OutcomeRel FrameAgree (stmt f) (stmt g)) :
    ∀ f g : Frame, FrameAgree f g →
      OutcomeRel FrameAgree (runStmts stmts f) (runStmts stmts g) := by
  induction stmts with
  | nil => intro f g h; simpa [runStmts, OutcomeRel] using h
  | cons stmt rest ih =>
    intro f g h
    have h0 := hall stmt (List.mem_cons_self _ _) f g h
    have ih2 := ih (fun st hst => hall st (List.mem_cons_of_mem _ hst))
    rcases h1 : stmt f with x | f2 <;> rcases h2 : stmt g with y | g2 <;>
      simp [runStmts, h1, h2, OutcomeRel] at h0 ⊢
    · exact h0
    · exact ih2 f2 g2 h0

/-- C6 (as amended): after `create()` returns, the `next_employee` field of the
created `Employee` is the null pointer, for every allocator and initial state:
`new Employee()` value-initialises the record and no statement assigns the field
afterwards. -/
theorem create_next_employee_null (A : Allocator) (s : State) :
    ∃ (m e : Nat) (s' : State),
      create A s = .ok (.addr m, s') ∧
      s'.heap.lookup m = some (.manager { first_employee := .addr e }) ∧
      s'.heap.lookup e = some (.employee { boss := .addr m, next_employee := .null }) := by
  obtain ⟨e, m, -, -, hne, -, -, hc⟩ := create_spec A s
  exact ⟨m, e, _, hc, by simp [AList.lookup_insert],
    by simp [AList.lookup_insert, AList.lookup_insert_ne hne]⟩

/-- C6 as stated fails: with the bump allocator on the empty state `create()` returns
the manager at address 2 whose employee is at address 1, and that employee's
`next_employee` holds the null pointer, a defined value, not an indeterminate one. -/
theorem create_next_employee_defined :
    ∃ s' : State,
      create bumpAllocator State.empty = .ok (.addr 2, s') ∧
      s'.heap.lookup 2 = some (.manager { first_employee := .addr 1 }) ∧
      s'.heap.lookup 1 = some (.employee { boss := .addr 2, next_employee := .null }) ∧
      s'.heap.lookup 1 ≠
        some (.employee { boss := .addr 2, next_employee := .indeterminate }) :=
  ⟨_, rfl, by decide, by decide, by decide⟩

/-- C7: `create()` and `main()` neither read nor assign `next_employee`, and what they
do does not depend on it. For every allocator: (1) `create()` succeeds and none of
the events it logs is a read or write of `next_employee`; (2) the same for `main()`;
(3) on two states that differ at most in `next_employee` fields `create()` returns the
same pointer and states that again differ at most there; (4) the same for `main()`
with status 0; (5) resumed at any program point in two frames that differ at most in
`next_employee` fields, `main()` ends in the same fault or in frames that again
differ at most there. -/
theorem next_employee_never_touched (A : Allocator) :
    (∀ s : State, ∃ (m : Ptr) (s' : State) (evs : List Event),
      create A s = .ok (m, s') ∧ s'.log = s.log ++ evs ∧
      evs.all (fun ev => !ev.touchesNext) = true) ∧
    (∀ s : State, ∃ (s' : State) (evs : List Event),
      main A s = .ok (0, s') ∧ s'.log = s.log ++ evs ∧
      evs.all (fun ev => !ev.touchesNext) = true) ∧
    (∀ s t : State, AgreeOffNext s t → ∃ (m : Ptr) (s' t' : State),
      create A s = .ok (m, s') ∧ create A t = .ok (m, t') ∧ AgreeOffNext s' t') ∧
    (∀ s t : State, AgreeOffNext s t → ∃ s' t' : State,
      main A s = .ok (0, s') ∧ main A t = .ok (0, t') ∧ AgreeOffNext s' t') ∧
    (∀ (k : Nat) (f g : Frame), FrameAgree f g →
      OutcomeRel FrameAgree (runFrom A k f) (runFrom A k g)) := by
  refine ⟨?_, ?_, ?_, ?_, ?_⟩
  · intro s
    obtain ⟨e, m, -, -, -, -, -, hc⟩ := create_spec A s
    exact ⟨_, _, _, hc, rfl, by simp [Event.touchesNext]⟩
  · intro s
    exact ⟨_, _, main_closed A s, rfl, by simp [Event.touchesNext]⟩
  · intro s t h
    exact create_agree A h
  · intro s t h
    refine ⟨_, _, main_closed A s, main_closed A t, ?_⟩
    rw [h.2.1]
    exact agree_log h _
  · intro k f g h
    apply runStmts_agree _ _ f g h
    intro stmt hmem f2 g2 h2
    exact stmt_agree A stmt (List.mem_of_mem_drop hmem) h2

/-- Witness of C7: two states whose only record differs in `next_employee`
(indeterminate in one, an address in the other) are taken by `main()` to status 0
and to states that differ at most in `next_employee`. -/
theorem next_employee_never_touched_witness :
    AgreeOffNext
      { heap := AList.insert 7 (.employee ⟨.null, .indeterminate⟩) ∅, log := [] }
      { heap := AList.insert 7 (.employee ⟨.null, .addr 3⟩) ∅, log := [] } ∧
    ∃ s' t' : State,
      main bumpAllocator
        { heap := AList.insert 7 (.employee ⟨.null, .indeterminate⟩) ∅, log := [] }
          = .ok (0, s') ∧
      main bumpAllocator
        { heap := AList.insert 7 (.employee ⟨.null, .addr 3⟩) ∅, log := [] }
          = .ok (0, t') ∧
      AgreeOffNext s' t' :=
  have h : AgreeOffNext
      { heap := AList.insert 7 (.employee ⟨.null, .indeterminate⟩) ∅, log := [] }
      { heap := AList.insert 7 (.employee ⟨.null, .addr 3⟩) ∅, log := [] } :=
    @agree_insert State.empty State.empty
      ⟨rfl, rfl, fun _ => rfl⟩ 7 (.employee ⟨.null, .indeterminate⟩)
      (.employee ⟨.null, .addr 3⟩) rfl []
  ⟨h, (next_employee_never_touched bumpAllocator).2.2.2.1 _ _ h⟩

end RecursiveDT
